import Mathlib

/-
Verification of the site power controller federate
(src/main/python/gemini/cosimulation/site_power_controller_federate.py)
against its natural-language specification.

Shallow embedding conventions:
  - A JSON object coming over the wire is modelled as an association list of
    string keys to string values (the loop only ever reads string fields).
  - The two controller registries (default_spm_c_dict / ride_hail_spm_c_dict)
    are insertion-ordered association lists, matching Python dict semantics.
  - A controller instance is modelled by its constructor arguments plus the
    chronological history of run calls it has received; the concrete
    per-site controller algorithm (site_power_controller_utils, not part of
    this repository's sources) is an external strategy and enters the model
    as a function parameter outF mapping an instance to the output of its
    latest run.
  - External bus calls (helicsInputGetString, helicsFederateRequestTime)
    enter as function parameters (msgs, the grant stream), and json.loads on
    the inbound side enters as a parameter loads; Python paths that raise an
    uncaught exception (events that are not objects with a siteId, iterating
    a JSON string) are modelled as Option.none.
-/

namespace SPCF

/-- A JSON object of the inbound wire format, restricted to string-valued
fields: an association list from key to value. -/
abbrev PyObj := List (String × String)

/-- One command record of the outbound CommandBatch, again a flat
string-valued JSON object. -/
abbrev Cmd := List (String × String)

/-- A controller run invocation: site identifier, tick, filtered events. -/
abbrev Task := String × Nat × List PyObj

/-- A controller instance: its constructor arguments (name, site id) plus
the chronological list of run calls it has received (its mutable state). -/
structure Instance where
  name : String
  siteId : String
  runs : List (Nat × List PyObj)
deriving DecidableEq, Repr

/-- The two controller registries of the federate, mirrors the local dicts
default_spm_c_dict and ride_hail_spm_c_dict. -/
structure Registries where
  default_spm_c_dict : List (String × Instance)
  ride_hail_spm_c_dict : List (String × Instance)
deriving DecidableEq, Repr

/-- Result of json.loads on the inbound message, as far as the loop
inspects it: a JSON string, a JSON array of (event) objects, or any other
JSON value (dict, number, bool, null), which is not a Python Sequence. -/
inductive Parsed where
  | pstr (s : String)
  | parr (events : List PyObj)
  | pother
deriving DecidableEq, Repr

/-- The spec's two site classes. -/
inductive Variant where
  | default
  | rideHail
deriving DecidableEq, Repr

/-- The reserved depot prefix, source line `depot_prefix = "depot"`. -/
def depotPrefixVal : String := "depot"

/-- Python str.lower() on the identifiers in play (ASCII). -/
def pyLower (s : String) : List Char := s.data.map Char.toLower

/-- Python str.startswith(pre). -/
def pyStartsWith (pre : String) (l : List Char) : Bool := pre.data.isPrefixOf l

/-- The whitespace characters stripped by Python str.strip(). -/
def isPySpace (c : Char) : Bool :=
  c = ' ' || c = '\t' || c = '\n' || c = '\r' || c = '\x0b' || c = '\x0c'

/-- Python `not bool(str(m).strip())`: true when the message is empty or
whitespace-only. -/
def strippedEmpty (msg : String) : Bool := msg.data.all isPySpace

/-- Modelled from the spec: `classify` (spec section 3 / 4.1), the pure site
classification by naming convention; in the source the classification is
inlined as the conditional `not site_id_str.lower().startswith(depot_prefix)`
in run_spm_controllers, run_multi_threaded_spm_controllers and
get_power_commands. -/
def classify (s : String) : Variant :=
  if pyStartsWith depotPrefixVal (pyLower s) then Variant.rideHail else Variant.default

/-- Source key_func: `k['siteId']`.  The enclosing loop is modelled only on
batches whose events all carry a siteId key (otherwise Python raises
KeyError and the federate thread dies; processTickWith returns none there),
so the getD default is never observed. -/
def key_func (e : PyObj) : String :=
  (e.lookup "siteId").getD ""

/-- Python `'vehicleId' in charging_event`. -/
def hasVehicleId (e : PyObj) : Bool :=
  (e.lookup "vehicleId").isSome

/-- itertools.groupby: split a list into maximal runs of adjacent elements
sharing the same key; each run is returned with its key.  Repeated keys in
non-adjacent positions yield separate groups. -/
def pyGroupBy (key : α → κ) [DecidableEq κ] : List α → List (κ × List α)
  | [] => []
  | x :: xs =>
    match pyGroupBy key xs with
    | [] => [(key x, [x])]
    | (k, g) :: rest =>
      if key x = k then (key x, x :: g) :: rest
      else (key x, [x]) :: (k, g) :: rest

/-- Source init_spm_controllers: on first sighting of a site id, store a
fresh DefaultSPMC in default_spm_c_dict and a fresh RideHailSPMC in
ride_hail_spm_c_dict; existing entries are left untouched. -/
def init_spm_controllers (s : String) (regs : Registries) : Registries :=
  let d :=
    if (regs.default_spm_c_dict.lookup s).isSome then regs.default_spm_c_dict
    else regs.default_spm_c_dict ++ [(s, ⟨"DefaultSPMC", s, []⟩)]
  let r :=
    if (regs.ride_hail_spm_c_dict.lookup s).isSome then regs.ride_hail_spm_c_dict
    else regs.ride_hail_spm_c_dict ++ [(s, ⟨"RideHailSPMC", s, []⟩)]
  ⟨d, r⟩

/-- Record one run call on the instance stored under site in a registry
dict (Python mutates the stored object in place; a missing key would raise
KeyError, but in the loop init_spm_controllers always precedes run). -/
def recordRun (site : String) (t : Nat) (es : List PyObj)
    (d : List (String × Instance)) : List (String × Instance) :=
  d.map (fun p => if p.1 = site then (p.1, ⟨p.2.name, p.2.siteId, p.2.runs ++ [(t, es)]⟩) else p)

/-- Source run_spm_controllers (and run_multi_threaded_spm_controllers,
which picks the controller by the identical conditional): dispatch the run
call to the registry selected by the depot-prefix test. -/
def run_spm_controllers (site : String) (t : Nat) (es : List PyObj)
    (regs : Registries) : Registries :=
  if ¬ (pyStartsWith depotPrefixVal (pyLower site)) then
    { regs with default_spm_c_dict := recordRun site t es regs.default_spm_c_dict }
  else
    { regs with ride_hail_spm_c_dict := recordRun site t es regs.ride_hail_spm_c_dict }

/-- Source get_power_commands: read get_output_from_latest_run() from the
controller selected by the depot-prefix test.  outF is the external
controller strategy (site_power_controller_utils is not in the repository
sources); a missing key would raise KeyError, modelled as []. -/
def get_power_commands (outF : Instance → List Cmd) (regs : Registries)
    (site : String) : List Cmd :=
  if ¬ (pyStartsWith depotPrefixVal (pyLower site)) then
    match regs.default_spm_c_dict.lookup site with
    | some i => outF i
    | none => []
  else
    match regs.ride_hail_spm_c_dict.lookup site with
    | some i => outF i
    | none => []

/-- Python isinstance(x, collections.abc.Sequence) on a json.loads result:
true for str and list, false for dict, numbers, bool and None. -/
def isSequence : Parsed → Bool
  | Parsed.pstr _ => true
  | Parsed.parr _ => true
  | Parsed.pother => false

/-- Python len() on the parsed value. -/
def pyLen : Parsed → Nat
  | Parsed.pstr s => s.length
  | Parsed.parr l => l.length
  | Parsed.pother => 0

/-- Source parse_json: json.loads wrapped so that a JSONDecodeError is
logged (second component true) and turned into the empty string. -/
def parse_json (loads : String → Option Parsed) (msg : String) : Parsed × Bool :=
  match loads msg with
  | some v => (v, false)
  | none => (Parsed.pstr "", true)

/-- Source sync_time, granted-time recursion: granted starts at -1 and the
bus is re-requested while granted < requested; grants is the stream of
values returned by helicsFederateRequestTime, none means the modelled
stream was exhausted while still looping. -/
def syncTimeAux (requested : Int) : Int → List Int → Option Int
  | granted, [] => if granted < requested then none else some granted
  | granted, g :: tl =>
    if granted < requested then syncTimeAux requested g tl else some granted

/-- Source sync_time: loop until the bus grants at least the requested
time; the result is the final granted time. -/
def sync_time (grants : List Int) (requested : Int) : Option Int :=
  syncTimeAux requested (-1) grants

/-- Comma-join of already serialized items, the separator behaviour of
str.join / json.dumps item separator. -/
def joinComma : List String → String
  | [] => ""
  | [x] => x
  | x :: y :: xs => x ++ "," ++ joinComma (y :: xs)

/-- Serialized JSON string literal for an escape-free string; json.dumps
emits exactly this for ASCII printable text without quote or backslash. -/
def dumpsStr (s : String) : String := "\"" ++ s ++ "\""

/-- One key/value pair with the ':' item separator of
json.dumps(..., separators=(',', ':')). -/
def dumpsPair (p : String × String) : String :=
  dumpsStr p.1 ++ ":" ++ dumpsStr p.2

/-- One flat JSON object, compact separators. -/
def dumpsObj (c : Cmd) : String :=
  "\x7b" ++ joinComma (c.map dumpsPair) ++ "\x7d"

/-- Modelled from the spec: encode (spec section 4.5), the outbound
serialization json.dumps(power_commands_list, separators=(',', ':')) (the
json library itself is not part of the repository sources), restricted to
the CommandBatch wire shape of a JSON array of flat string-valued
objects. -/
def dumpsBatch (b : List Cmd) : String :=
  "[" ++ joinComma (b.map dumpsObj) ++ "]"

/-- The per-tick observable effects of one main-loop iteration. -/
structure TickOut where
  published : String
  parseErrorLogged : Bool
  notSequenceLogged : Bool
  groupKeys : List String
  runCalls : List Task
  processed : List String
  siteCount : Nat
  eventCount : Nat
deriving DecidableEq, Repr

/-- Accumulator of the groupby loop of run_spm_federate: registries,
pending run calls, processed_side_ids and the two log counters. -/
structure LoopAcc where
  regs : Registries
  tasks : List Task
  processed : List String
  siteCount : Nat
  eventCount : Nat
deriving DecidableEq, Repr

/-- One iteration of `for site_id, charging_events in itertools.groupby`:
init both controllers, filter events lacking vehicleId, and when any remain
record the run call and append the site to processed_side_ids. -/
def groupStep (t : Nat) (acc : LoopAcc) (g : String × List PyObj) : LoopAcc :=
  let regs1 := init_spm_controllers g.1 acc.regs
  let fes := g.2.filter hasVehicleId
  if 0 < fes.length then
    ⟨regs1, acc.tasks ++ [(g.1, t, fes)], acc.processed ++ [g.1],
      acc.siteCount + 1, acc.eventCount + fes.length⟩
  else
    ⟨regs1, acc.tasks, acc.processed, acc.siteCount, acc.eventCount⟩

/-- Execute one recorded run call against the registries. -/
def applyTask (regs : Registries) (task : Task) : Registries :=
  run_spm_controllers task.1 task.2.1 task.2.2 regs

/-- One iteration of the execution loop of run_spm_federate, from reading
the inbound message to the publish, parameterized by the schedule sched in
which the controller run calls execute.

Sequential dispatch (multi_threaded_run = False) is sched = id.  Modelled
from the spec: in multi-threaded dispatch (multi_threaded_run = True) the
runs are spawned via run_as_thread (site_power_controller_utils, not in the
repository sources) and, per the spec's join-before-aggregate barrier, all
complete before any get_output_from_latest_run read; a concurrent execution
is therefore modelled as running the spawned calls in an arbitrary
serialization sched of the spawn order, after which the outputs are read in
processed_side_ids order exactly as in sequential mode.

Returns none where the Python loop would raise an uncaught exception and
kill the federate thread (iterating a non-empty JSON string, or an event
object without a siteId key). -/
def processTickWith (sched : List Task → List Task) (loads : String → Option Parsed)
    (outF : Instance → List Cmd) (regs : Registries) (t : Nat) (msg : String) :
    Option (Registries × TickOut) :=
  if strippedEmpty msg then
    some (regs, ⟨dumpsBatch [], false, false, [], [], [], 0, 0⟩)
  else
    let pj := parse_json loads msg
    if ¬ isSequence pj.1 then
      some (regs, ⟨dumpsBatch [], pj.2, true, [], [], [], 0, 0⟩)
    else if pyLen pj.1 = 0 then
      some (regs, ⟨dumpsBatch [], pj.2, false, [], [], [], 0, 0⟩)
    else
      match pj.1 with
      | Parsed.pstr _ => none
      | Parsed.pother => none
      | Parsed.parr events =>
        if events.all (fun e => (e.lookup "siteId").isSome) then
          let groups := pyGroupBy key_func events
          let acc := groups.foldl (groupStep t) ⟨regs, [], [], 0, 0⟩
          let tasksRun := sched acc.tasks
          let regs2 := tasksRun.foldl applyTask acc.regs
          let cmds := acc.processed.foldl (fun l s => l ++ get_power_commands outF regs2 s) []
          some (regs2, ⟨dumpsBatch cmds, pj.2, false, groups.map Prod.fst, tasksRun,
            acc.processed, acc.siteCount, acc.eventCount⟩)
        else none

/-- Sequential-mode tick, the reference semantics. -/
def processTick (loads : String → Option Parsed) (outF : Instance → List Cmd)
    (regs : Registries) (t : Nat) (msg : String) : Option (Registries × TickOut) :=
  processTickWith id loads outF regs t msg

/-- Inbound messages on which the Python loop body completes without an
uncaught exception: empty/whitespace, malformed JSON, a non-Sequence JSON
value, the empty JSON string, or an array of objects all carrying siteId. -/
def tickSafe (loads : String → Option Parsed) (msg : String) : Bool :=
  strippedEmpty msg ||
    (match loads msg with
     | none => true
     | some (Parsed.pstr s) => s.length == 0
     | some Parsed.pother => true
     | some (Parsed.parr events) => events.all (fun e => (e.lookup "siteId").isSome))

/-- Python range(0, stop, step) for positive step, the tick sequence
`range(0, simulated_day_in_seconds - time_bin_in_seconds, time_bin_in_seconds)`. -/
def pyRange (stop step : Nat) : List Nat :=
  (List.range ((stop + step - 1) / step)).map (fun i => i * step)

/-- One loop iteration threaded through the fold of the main loop; a tick
on which the body raised (none) aborts the rest of the run. -/
def tickStep (loads : String → Option Parsed) (outF : Instance → List Cmd)
    (msgs : Nat → String) (st : Option (Registries × List TickOut)) (t : Nat) :
    Option (Registries × List TickOut) :=
  match st with
  | none => none
  | some (regs, outs) =>
    match processTick loads outF regs t (msgs t) with
    | none => none
    | some (regs2, out) => some (regs2, outs ++ [out])

/-- Source run_spm_federate, the execution loop: one processTick per tick
of range(0, simulated_day - time_bin, time_bin), starting from empty
registries; msgs is the per-tick inbound message read from the bus. -/
def run_spm_federate (loads : String → Option Parsed) (outF : Instance → List Cmd)
    (timeBin simDay : Nat) (msgs : Nat → String) : Option (Registries × List TickOut) :=
  (pyRange (simDay - timeBin) timeBin).foldl (tickStep loads outF msgs) (some (⟨[], []⟩, []))

/-! Concrete inputs used in the end-to-end scenario of the spec. -/

/-- First event of the spec's end-to-end scenario. -/
def e1 : PyObj := [("siteId", "S1"), ("vehicleId", "V1")]

/-- Second event of the spec's end-to-end scenario. -/
def e2 : PyObj := [("siteId", "depot-1"), ("vehicleId", "V2")]

/-- Third event of the spec's end-to-end scenario. -/
def e3 : PyObj := [("siteId", "S1"), ("vehicleId", "V3")]

/-- The spec's end-to-end scenario batch. -/
def claimEvents : List PyObj := [e1, e2, e3]

/-- An inbound decoder that yields the scenario batch for any message. -/
def loadsClaim : String → Option Parsed := fun _ => some (Parsed.parr claimEvents)

/-- The default controller for S1 after the scenario tick: it received two
run calls, one per contiguous S1 group. -/
def instS1run2 : Instance := ⟨"DefaultSPMC", "S1", [(60, [e1]), (60, [e3])]⟩

/-- The depot controller for depot-1 after the scenario tick. -/
def instDepot1 : Instance := ⟨"RideHailSPMC", "depot-1", [(60, [e2])]⟩

/-- A legitimate controller strategy whose latest-run output echoes the
events of the latest run call; used to separate the dispatch schedules. -/
def outLatest : Instance → List Cmd := fun inst =>
  match inst.runs.getLast? with
  | some r => r.2
  | none => []

/-- An inbound decoder yielding one event that has a siteId but no
vehicleId. -/
def loadsNoVid : String → Option Parsed :=
  fun _ => some (Parsed.parr [[("siteId", "S2")]])

/-- An inbound decoder yielding two events at two distinct sites. -/
def loadsPair : String → Option Parsed :=
  fun _ => some (Parsed.parr [e1, e2])

/-! The outbound codec.  json.dumps with separators (',', ':') is modelled
by dumpsBatch above; the decoder below is the counterpart of json.loads on
the CommandBatch wire fragment (arrays of flat string-valued objects). -/

/-- A codec-transparent character: printable ASCII that json.dumps leaves
unescaped (no quote, no backslash). -/
def wfChar (c : Char) : Bool :=
  decide (32 ≤ c.toNat) && decide (c.toNat < 128) && !(c == '"') && !(c == '\\')

/-- A codec-transparent string. -/
def wfStr (s : String) : Bool := s.data.all wfChar

/-- A codec-transparent command object. -/
def wfCmd (c : Cmd) : Bool := c.all (fun p => wfStr p.1 && wfStr p.2)

/-- A codec-transparent CommandBatch. -/
def wfBatch (b : List Cmd) : Bool := b.all wfCmd

/-- Modelled from the spec: decode (spec section 4.5) — the JSON parser of
the Python json library (not part of the repository sources), restricted to
the CommandBatch wire fragment.  parseStrLit consumes one string literal
without escapes. -/
def parseStrLit : List Char → Option (String × List Char)
  | [] => none
  | c :: rest =>
    if c = '"' then
      match rest.dropWhile (fun ch => !(ch == '"')) with
      | [] => none
      | c2 :: rest2 =>
        if c2 = '"' then some (⟨rest.takeWhile (fun ch => !(ch == '"'))⟩, rest2)
        else none
    else none

/-- Parse one key:value pair of a flat object. -/
def parsePair (cs : List Char) : Option ((String × String) × List Char) :=
  match parseStrLit cs with
  | some (k, rest) =>
    match rest with
    | c :: rest2 =>
      if c = ':' then
        match parseStrLit rest2 with
        | some (v, rest3) => some ((k, v), rest3)
        | none => none
      else none
    | [] => none
  | none => none

/-- Parse a non-empty comma-separated pair sequence; fuel bounds the number
of pairs. -/
def parsePairsAux : Nat → List Char → Option (List (String × String) × List Char)
  | 0, _ => none
  | fuel + 1, cs =>
    match parsePair cs with
    | some (p, rest) =>
      match rest with
      | c :: rest2 =>
        if c = ',' then
          match parsePairsAux fuel rest2 with
          | some (ps, rest3) => some (p :: ps, rest3)
          | none => none
        else some ([p], rest)
      | [] => some ([p], rest)
    | none => none

/-- Parse one flat object. -/
def parseObj (cs : List Char) : Option (Cmd × List Char) :=
  match cs with
  | c :: rest =>
    if c = '\x7b' then
      match rest with
      | c2 :: _ =>
        if c2 = '\x7d' then some ([], rest.tail)
        else
          match parsePairsAux (rest.length + 1) rest with
          | some (ps, d :: rest2) => if d = '\x7d' then some (ps, rest2) else none
          | _ => none
      | [] => none
    else none
  | [] => none

/-- Parse a non-empty comma-separated object sequence; fuel bounds the
number of objects. -/
def parseObjsAux : Nat → List Char → Option (List Cmd × List Char)
  | 0, _ => none
  | fuel + 1, cs =>
    match parseObj cs with
    | some (c, rest) =>
      match rest with
      | d :: rest2 =>
        if d = ',' then
          match parseObjsAux fuel rest2 with
          | some (bs, rest3) => some (c :: bs, rest3)
          | none => none
        else some ([c], rest)
      | [] => some ([c], rest)
    | none => none

/-- Modelled from the spec: decode of a full CommandBatch message; succeeds
only when the whole input is consumed. -/
def loadsBatch (s : String) : Option (List Cmd) :=
  match s.data with
  | c :: rest =>
    if c = '[' then
      match rest with
      | c2 :: rest2 =>
        if c2 = ']' then (if rest2 = [] then some [] else none)
        else
          match parseObjsAux (rest.length + 1) rest with
          | some (bs, d :: rest3) =>
            if d = ']' then (if rest3 = [] then some bs else none) else none
          | _ => none
      | [] => none
    else none
  | [] => none

/-! Helper lemmas. -/

theorem syncTimeAux_ge (req : Int) :
    ∀ (granted : Int) (gs : List Int) (g : Int),
      syncTimeAux req granted gs = some g → req ≤ g := by
  intro granted gs
  induction gs generalizing granted with
  | nil =>
    intro g h
    by_cases hc : granted < req
    · simp [syncTimeAux, hc] at h
    · simp [syncTimeAux, hc] at h
      omega
  | cons x tl ih =>
    intro g h
    by_cases hc : granted < req
    · exact ih x g (by simpa [syncTimeAux, hc] using h)
    · simp [syncTimeAux, hc] at h
      omega

theorem lookup_append_of_some {α β : Type} [DecidableEq α] {d : List (α × β)} {k : α} {i : β}
    (h : d.lookup k = some i) (e : List (α × β)) : (d ++ e).lookup k = some i := by
  induction d with
  | nil => simp [List.lookup] at h
  | cons p tl ih =>
    by_cases hk : k = p.1
    · simpa [List.lookup, hk] using (by simpa [List.lookup, hk] using h : p.2 = i)
    · have hne : (k == p.1) = false := by simpa using hk
      simp only [List.cons_append, List.lookup, hne] at h ⊢
      exact ih h

theorem lookup_append_of_none {α β : Type} [DecidableEq α] {d : List (α × β)} {k : α}
    (h : d.lookup k = none) (e : List (α × β)) : (d ++ e).lookup k = e.lookup k := by
  induction d with
  | nil => simp
  | cons p tl ih =>
    by_cases hk : k = p.1
    · simp [List.lookup, hk] at h
    · have hne : (k == p.1) = false := by simpa using hk
      simp only [List.cons_append, List.lookup, hne] at h ⊢
      exact ih h

theorem init_lookup_isSome (s : String) (regs : Registries) :
    ((init_spm_controllers s regs).default_spm_c_dict.lookup s).isSome = true
    ∧ ((init_spm_controllers s regs).ride_hail_spm_c_dict.lookup s).isSome = true := by
  unfold init_spm_controllers
  constructor
  · by_cases hd : (regs.default_spm_c_dict.lookup s).isSome
    · simp [hd]
    · simp only [hd, if_false, Bool.false_eq_true]
      have hnone : regs.default_spm_c_dict.lookup s = none := by
        cases hh : regs.default_spm_c_dict.lookup s with
        | none => rfl
        | some i => simp [hh] at hd
      rw [lookup_append_of_none hnone]
      simp [List.lookup]
  · by_cases hd : (regs.ride_hail_spm_c_dict.lookup s).isSome
    · simp [hd]
    · simp only [hd, if_false, Bool.false_eq_true]
      have hnone : regs.ride_hail_spm_c_dict.lookup s = none := by
        cases hh : regs.ride_hail_spm_c_dict.lookup s with
        | none => rfl
        | some i => simp [hh] at hd
      rw [lookup_append_of_none hnone]
      simp [List.lookup]

theorem pyGroupBy_sound {α κ : Type} [DecidableEq κ] (key : α → κ) :
    ∀ (l : List α) (k : κ) (g : List α), (k, g) ∈ pyGroupBy key l →
      ∀ e ∈ g, key e = k ∧ e ∈ l := by
  intro l
  induction l with
  | nil => intro k g h; simp [pyGroupBy] at h
  | cons x xs ih =>
    intro k g h e he
    rw [pyGroupBy] at h
    cases hpg : pyGroupBy key xs with
    | nil =>
      rw [hpg] at h
      simp only [List.mem_singleton, Prod.mk.injEq] at h
      obtain ⟨hk, hg⟩ := h
      subst hg
      simp only [List.mem_singleton] at he
      subst he
      exact ⟨hk.symm, List.mem_cons_self _ _⟩
    | cons p rest =>
      rw [hpg] at h
      by_cases hx : key x = p.1
      · simp only [hx, if_true] at h
        rcases List.mem_cons.mp h with h1 | h2
        · have hk : k = key x := by
            have := congrArg Prod.fst h1; simpa [hx] using this
          have hg : g = x :: p.2 := congrArg Prod.snd h1
          subst hg
          rcases List.mem_cons.mp he with he1 | he2
          · subst he1; exact ⟨hk ▸ rfl, List.mem_cons_self _ _⟩
          · have hp : (p.1, p.2) ∈ pyGroupBy key xs := by
              rw [hpg]; exact List.mem_cons_self _ _
            have := ih p.1 p.2 hp e he2
            exact ⟨by rw [this.1, ← hx, ← hk], List.mem_cons_of_mem x this.2⟩
        · have hmem : (k, g) ∈ pyGroupBy key xs := by
            rw [hpg]; exact List.mem_cons_of_mem p h2
          have := ih k g hmem e he
          exact ⟨this.1, List.mem_cons_of_mem x this.2⟩
      · simp only [hx, if_false] at h
        rcases List.mem_cons.mp h with h1 | h2
        · have hk : k = key x := by
            have := congrArg Prod.fst h1; simpa using this
          have hg : g = [x] := congrArg Prod.snd h1
          subst hg
          simp only [List.mem_singleton] at he
          subst he
          exact ⟨hk.symm, List.mem_cons_self _ _⟩
        · have hmem : (k, g) ∈ pyGroupBy key xs := by rw [hpg]; exact h2
          have := ih k g hmem e he
          exact ⟨this.1, List.mem_cons_of_mem x this.2⟩

theorem fold_groupStep_tasks_filtered (t : Nat) :
    ∀ (groups : List (String × List PyObj)) (acc : LoopAcc),
      (∀ ta ∈ acc.tasks, ∀ e ∈ ta.2.2, hasVehicleId e = true) →
      ∀ ta ∈ (groups.foldl (groupStep t) acc).tasks, ∀ e ∈ ta.2.2, hasVehicleId e = true := by
  intro groups
  induction groups with
  | nil => intro acc hacc; simpa using hacc
  | cons g gs ih =>
    intro acc hacc
    simp only [List.foldl_cons]
    refine ih (groupStep t acc g) ?_
    intro ta hta e he
    unfold groupStep at hta
    by_cases hlen : 0 < (g.2.filter hasVehicleId).length
    · simp only [hlen, if_true] at hta
      rcases List.mem_append.mp hta with h1 | h2
      · exact hacc ta h1 e he
      · simp only [List.mem_singleton] at h2
        subst h2
        simp only at he
        exact (List.mem_filter.mp he).2
    · simp only [hlen, if_false] at hta
      exact hacc ta hta e he

theorem fold_groupStep_site_dropped (t : Nat) (s : String) :
    ∀ (groups : List (String × List PyObj)) (acc : LoopAcc),
      (∀ gp ∈ groups, gp.1 = s → gp.2.filter hasVehicleId = []) →
      (∀ ta ∈ acc.tasks, ta.1 ≠ s) → s ∉ acc.processed →
      (∀ ta ∈ (groups.foldl (groupStep t) acc).tasks, ta.1 ≠ s)
        ∧ s ∉ (groups.foldl (groupStep t) acc).processed := by
  intro groups
  induction groups with
  | nil => intro acc _ h1 h2; exact ⟨h1, h2⟩
  | cons g gs ih =>
    intro acc hg h1 h2
    simp only [List.foldl_cons]
    refine ih (groupStep t acc g) (fun gp hgp => hg gp (List.mem_cons_of_mem g hgp)) ?_ ?_
    · intro ta hta
      unfold groupStep at hta
      by_cases hlen : 0 < (g.2.filter hasVehicleId).length
      · simp only [hlen, if_true] at hta
        rcases List.mem_append.mp hta with hm | hm
        · exact h1 ta hm
        · simp only [List.mem_singleton] at hm
          subst hm
          intro hgs
          have := hg g (List.mem_cons_self g gs) hgs
          rw [this] at hlen
          simp at hlen
      · simp only [hlen, if_false] at hta
        exact h1 ta hta
    · unfold groupStep
      by_cases hlen : 0 < (g.2.filter hasVehicleId).length
      · simp only [hlen, if_true]
        intro hmem
        rcases List.mem_append.mp hmem with hm | hm
        · exact h2 hm
        · simp only [List.mem_singleton] at hm
          have := hg g (List.mem_cons_self g gs) hm.symm
          rw [this] at hlen
          simp at hlen
      · simp only [hlen, if_false]
        exact h2

theorem init_spm_controllers_of_isSome (s : String) (regs : Registries)
    (hd : (regs.default_spm_c_dict.lookup s).isSome = true)
    (hr : (regs.ride_hail_spm_c_dict.lookup s).isSome = true) :
    init_spm_controllers s regs = regs := by
  simp [init_spm_controllers, hd, hr]

/-! Claim theorems. -/

/-- C2: the time-sync step never proceeds while the granted time is less
than the requested time; while granted < requested it re-requests (consumes
the next grant from the bus), and whenever sync_time returns a final
granted time it is at least the requested time. -/
theorem c2_sync_time_never_proceeds_early (grants : List Int) (requested g : Int)
    (h : sync_time grants requested = some g) :
    requested ≤ g
    ∧ ∀ (granted next : Int) (tl : List Int), granted < requested →
        syncTimeAux requested granted (next :: tl) = syncTimeAux requested next tl := by
  refine ⟨syncTimeAux_ge requested (-1) grants g h, ?_⟩
  intro granted next tl hlt
  simp [syncTimeAux, hlt]

/-- Witness for C2 at a concrete grant stream: the bus answers 10, then 59,
then 60 for requested tick 60, and sync_time returns 60 ≥ 60. -/
theorem c2_witness : (60 : Int) ≤ 60 :=
  (c2_sync_time_never_proceeds_early [10, 59, 60] 60 60 (by decide)).1

/-- C6: site classification is total and deterministic; classify selects
the depot (RideHail) variant exactly when the lowercase site id starts with
the depot prefix, and both the run dispatch and the output read select the
registry of the classified variant. -/
theorem c6_classification_selects_variant (s : String) (outF : Instance → List Cmd)
    (regs : Registries) (t : Nat) (es : List PyObj) :
    (classify s = Variant.rideHail ↔ pyStartsWith depotPrefixVal (pyLower s) = true)
    ∧ run_spm_controllers s t es regs =
        (match classify s with
         | Variant.default =>
           { regs with default_spm_c_dict := recordRun s t es regs.default_spm_c_dict }
         | Variant.rideHail =>
           { regs with ride_hail_spm_c_dict := recordRun s t es regs.ride_hail_spm_c_dict })
    ∧ get_power_commands outF regs s =
        (match classify s with
         | Variant.default =>
           (match regs.default_spm_c_dict.lookup s with
            | some i => outF i
            | none => [])
         | Variant.rideHail =>
           (match regs.ride_hail_spm_c_dict.lookup s with
            | some i => outF i
            | none => [])) := by
  by_cases hd : pyStartsWith depotPrefixVal (pyLower s)
  · simp [classify, run_spm_controllers, get_power_commands, hd]
  · simp [classify, run_spm_controllers, get_power_commands, hd]

/-- C4: a non-empty but malformed inbound message yields an empty routed
mapping, a logged parse error and a published "[]" without crashing; an
empty or whitespace-only message publishes "[]" and logs no parse error. -/
theorem c4_malformed_and_empty_input (loads : String → Option Parsed)
    (outF : Instance → List Cmd) (regs : Registries) (t : Nat) (msg : String) :
    (strippedEmpty msg = false → loads msg = none →
      processTick loads outF regs t msg =
        some (regs, ⟨"[]", true, false, [], [], [], 0, 0⟩))
    ∧ (strippedEmpty msg = true →
      processTick loads outF regs t msg =
        some (regs, ⟨"[]", false, false, [], [], [], 0, 0⟩)) := by
  constructor
  · intro hne hload
    simp [processTick, processTickWith, parse_json, hne, hload, isSequence, pyLen,
      dumpsBatch, joinComma]
  · intro hemp
    simp [processTick, processTickWith, hemp, dumpsBatch, joinComma]

/-- Witness for C4: the malformed message from the spec and a whitespace
message, each at tick 0 on empty registries. -/
theorem c4_witness :
    processTick (fun _ => none) (fun _ => []) ⟨[], []⟩ 0 "\x7bnot valid" =
      some (⟨[], []⟩, ⟨"[]", true, false, [], [], [], 0, 0⟩)
    ∧ processTick (fun _ => none) (fun _ => []) ⟨[], []⟩ 0 "   " =
      some (⟨[], []⟩, ⟨"[]", false, false, [], [], [], 0, 0⟩) :=
  ⟨(c4_malformed_and_empty_input (fun _ => none) (fun _ => []) ⟨[], []⟩ 0
      "\x7bnot valid").1 (by decide) rfl,
   (c4_malformed_and_empty_input (fun _ => none) (fun _ => []) ⟨[], []⟩ 0
      "   ").2 (by decide)⟩

/-- C1 counterexample: on the spec's own end-to-end input the router
produces three groups, not two, because itertools.groupby only merges
adjacent records with equal keys; the repeated, non-contiguous site S1 is
not merged into one group. -/
theorem c1_counterexample : (pyGroupBy key_func claimEvents).length ≠ 2 := by
  decide

/-- C1 amended: routing groups only contiguous runs of equal site ids, so
the end-to-end input routes to three groups (S1 with one event, depot-1
with one event, S1 again with one event); S1's controller receives two
separate run calls, and the published CommandBatch is S1's latest output,
then depot-1's output, then S1's latest output a second time. -/
theorem c1_amended_contiguous_grouping :
    pyGroupBy key_func claimEvents = [("S1", [e1]), ("depot-1", [e2]), ("S1", [e3])]
    ∧ ∀ outF : Instance → List Cmd,
      (processTick loadsClaim outF ⟨[], []⟩ 60 "msg").map
          (fun r => (r.2.processed, r.2.published)) =
        some (["S1", "depot-1", "S1"],
          dumpsBatch (outF instS1run2 ++ outF instDepot1 ++ outF instS1run2)) :=
  ⟨by decide, fun outF => rfl⟩

/-- C8 counterexample: for a default-classified site the first
init_spm_controllers call does not construct exactly one instance of the
classified variant; it also stores a RideHail instance for the same key. -/
theorem c8_counterexample :
    ¬ (classify "S1" = Variant.default →
        (init_spm_controllers "S1" (Registries.mk [] [])).ride_hail_spm_c_dict = []) := by
  decide

/-- C8 amended: the first call stores one fresh instance of each variant
keyed by the site identifier (two constructions, one per registry); a later
call with the same identifier leaves the registries unchanged and thus
returns the same stored instances; the operation is idempotent; and no
stored entry is ever removed or replaced by it. -/
theorem c8_amended_registry_get_or_create (s : String) (regs : Registries) :
    ((regs.default_spm_c_dict.lookup s = none →
        (init_spm_controllers s regs).default_spm_c_dict =
          regs.default_spm_c_dict ++ [(s, ⟨"DefaultSPMC", s, []⟩)])
      ∧ (regs.ride_hail_spm_c_dict.lookup s = none →
        (init_spm_controllers s regs).ride_hail_spm_c_dict =
          regs.ride_hail_spm_c_dict ++ [(s, ⟨"RideHailSPMC", s, []⟩)]))
    ∧ ((∀ i, regs.default_spm_c_dict.lookup s = some i →
        (init_spm_controllers s regs).default_spm_c_dict = regs.default_spm_c_dict)
      ∧ (∀ i, regs.ride_hail_spm_c_dict.lookup s = some i →
        (init_spm_controllers s regs).ride_hail_spm_c_dict = regs.ride_hail_spm_c_dict))
    ∧ init_spm_controllers s (init_spm_controllers s regs) = init_spm_controllers s regs
    ∧ ((∀ k i, regs.default_spm_c_dict.lookup k = some i →
        (init_spm_controllers s regs).default_spm_c_dict.lookup k = some i)
      ∧ (∀ k i, regs.ride_hail_spm_c_dict.lookup k = some i →
        (init_spm_controllers s regs).ride_hail_spm_c_dict.lookup k = some i)) := by
  refine ⟨⟨?_, ?_⟩, ⟨?_, ?_⟩, ?_, ?_, ?_⟩
  · intro h
    simp [init_spm_controllers, h]
  · intro h
    simp [init_spm_controllers, h]
  · intro i h
    simp [init_spm_controllers, h]
  · intro i h
    simp [init_spm_controllers, h]
  · exact init_spm_controllers_of_isSome s (init_spm_controllers s regs)
      (init_lookup_isSome s regs).1 (init_lookup_isSome s regs).2
  · intro k i h
    by_cases hd : (regs.default_spm_c_dict.lookup s).isSome
    · simpa [init_spm_controllers, hd] using h
    · simp only [init_spm_controllers, hd, if_false, Bool.false_eq_true]
      exact lookup_append_of_some h _
  · intro k i h
    by_cases hd : (regs.ride_hail_spm_c_dict.lookup s).isSome
    · simpa [init_spm_controllers, hd] using h
    · simp only [init_spm_controllers, hd, if_false, Bool.false_eq_true]
      exact lookup_append_of_some h _

/-- C5: an event lacking a vehicleId never reaches any controller run
call, and a site all of whose events lack a vehicleId is dropped for the
tick: no run call carries its identifier and it does not enter
processed_side_ids, hence contributes nothing to the published batch. -/
theorem c5_vehicleId_filtering (loads : String → Option Parsed)
    (outF : Instance → List Cmd) (regs : Registries) (t : Nat) (msg : String)
    (res : Registries × TickOut)
    (h : processTick loads outF regs t msg = some res) :
    (∀ ta ∈ res.2.runCalls, ∀ e ∈ ta.2.2, hasVehicleId e = true)
    ∧ ∀ (s : String) (events : List PyObj), loads msg = some (Parsed.parr events) →
        (∀ e ∈ events, key_func e = s → hasVehicleId e = false) →
        (∀ ta ∈ res.2.runCalls, ta.1 ≠ s) ∧ s ∉ res.2.processed := by
  unfold processTick processTickWith at h
  by_cases h1 : strippedEmpty msg
  · simp only [h1, if_true] at h
    cases h
    simp
  · simp only [h1, Bool.false_eq_true, if_false] at h
    cases hl : loads msg with
    | none =>
      simp only [parse_json, hl, isSequence, pyLen, String.length, Bool.not_true,
        Bool.false_eq_true, if_false, if_true] at h
      cases h
      simp
    | some v =>
      cases v with
      | pstr s =>
        simp only [parse_json, hl, isSequence, Bool.not_true, Bool.false_eq_true,
          if_false, pyLen] at h
        by_cases hs : s.length = 0
        · simp only [hs, if_true] at h
          cases h
          simp
        · simp only [hs, if_false] at h
          cases h
      | pother =>
        simp only [parse_json, hl, isSequence, Bool.not_false, if_true] at h
        cases h
        simp
      | parr events =>
        simp only [parse_json, hl, isSequence, Bool.not_true, Bool.false_eq_true,
          if_false, pyLen] at h
        by_cases hlen : events.length = 0
        · simp only [hlen, if_true] at h
          cases h
          simp
        · simp only [hlen, if_false] at h
          by_cases hall : events.all (fun e => (e.lookup "siteId").isSome)
          · simp only [hall, if_true, id] at h
            cases h
            constructor
            · exact fold_groupStep_tasks_filtered t (pyGroupBy key_func events)
                ⟨regs, [], [], 0, 0⟩ (by simp)
            · intro s events' hl' hs
              have hev : events' = events := by
                cases hl'
                rfl
              subst hev
              refine fold_groupStep_site_dropped t s (pyGroupBy key_func events')
                ⟨regs, [], [], 0, 0⟩ ?_ (by simp) (by simp)
              intro gp hgp hgs
              refine List.filter_eq_nil_iff.mpr ?_
              intro e he
              have hgp' : (gp.1, gp.2) ∈ pyGroupBy key_func events' := by
                simpa using hgp
              have hsound := pyGroupBy_sound key_func events' gp.1 gp.2 hgp' e he
              have hk : key_func e = s := by rw [hsound.1, hgs]
              rw [hs e hsound.2 hk]
              simp
          · simp only [hall, if_false] at h
            cases h

/-- Witness for C8 amended: a first call on empty registries stores both
variants for site A, a second call is the identity, and an unrelated stored
entry survives a later call for site B. -/
theorem c8_witness :
    (init_spm_controllers "A" (Registries.mk [] [])).default_spm_c_dict =
      [] ++ [("A", Instance.mk "DefaultSPMC" "A" [])]
    ∧ init_spm_controllers "A" (init_spm_controllers "A" (Registries.mk [] [])) =
      init_spm_controllers "A" (Registries.mk [] [])
    ∧ (init_spm_controllers "B"
        (Registries.mk [("A", Instance.mk "DefaultSPMC" "A" [])] [])).default_spm_c_dict.lookup "A" =
      some (Instance.mk "DefaultSPMC" "A" []) :=
  ⟨(c8_amended_registry_get_or_create "A" ⟨[], []⟩).1.1 rfl,
   (c8_amended_registry_get_or_create "A" ⟨[], []⟩).2.2.1,
   (c8_amended_registry_get_or_create "B"
      ⟨[("A", Instance.mk "DefaultSPMC" "A" [])], []⟩).2.2.2.1 "A"
      (Instance.mk "DefaultSPMC" "A" []) rfl⟩

/-- Witness for C5 at a concrete tick whose only event lacks a vehicleId:
site S2 triggers no run call and is absent from processed_side_ids. -/
theorem c5_witness :
    (∀ ta ∈ (TickOut.mk "[]" false false ["S2"] [] [] 0 0).runCalls, ta.1 ≠ "S2")
    ∧ "S2" ∉ (TickOut.mk "[]" false false ["S2"] [] [] 0 0).processed :=
  (c5_vehicleId_filtering loadsNoVid (fun _ => []) ⟨[], []⟩ 0 "m"
      (⟨⟨[("S2", ⟨"DefaultSPMC", "S2", []⟩)], [("S2", ⟨"RideHailSPMC", "S2", []⟩)]⟩,
        ⟨"[]", false, false, ["S2"], [], [], 0, 0⟩⟩)
      rfl).2 "S2" [[("siteId", "S2")]] rfl (by decide)

theorem processTick_total (loads : String → Option Parsed) (outF : Instance → List Cmd)
    (regs : Registries) (t : Nat) (msg : String) (hsafe : tickSafe loads msg = true) :
    (processTick loads outF regs t msg).isSome = true := by
  unfold tickSafe at hsafe
  by_cases h1 : strippedEmpty msg
  · simp [processTick, processTickWith, h1]
  · simp only [h1, Bool.false_or] at hsafe
    cases hl : loads msg with
    | none =>
      simp [processTick, processTickWith, parse_json, hl, h1, isSequence, pyLen]
    | some v =>
      rw [hl] at hsafe
      cases v with
      | pstr s =>
        have hs : s.length = 0 := by simpa using hsafe
        simp [processTick, processTickWith, parse_json, hl, h1, isSequence, pyLen, hs]
      | pother =>
        simp [processTick, processTickWith, parse_json, hl, h1, isSequence]
      | parr events =>
        have hall : events.all (fun e => (e.lookup "siteId").isSome) = true := hsafe
        by_cases hlen : events.length = 0
        · simp [processTick, processTickWith, parse_json, hl, h1, isSequence, pyLen, hlen]
        · simp [processTick, processTickWith, parse_json, hl, h1, isSequence, pyLen,
            hlen, hall]

theorem processTick_pub_empty (loads : String → Option Parsed) (outF : Instance → List Cmd)
    (regs : Registries) (t : Nat) (msg : String) (res : Registries × TickOut)
    (h : processTick loads outF regs t msg = some res) (hp : res.2.processed = []) :
    res.2.published = "[]" := by
  unfold processTick processTickWith at h
  by_cases h1 : strippedEmpty msg
  · simp only [h1, if_true] at h
    cases h
    rfl
  · simp only [h1, Bool.false_eq_true, if_false] at h
    cases hl : loads msg with
    | none =>
      simp only [parse_json, hl, isSequence, pyLen, String.length, Bool.not_true,
        Bool.false_eq_true, if_false, if_true] at h
      cases h
      rfl
    | some v =>
      cases v with
      | pstr s =>
        simp only [parse_json, hl, isSequence, Bool.not_true, Bool.false_eq_true,
          if_false, pyLen] at h
        by_cases hs : s.length = 0
        · simp only [hs, if_true] at h
          cases h
          rfl
        · simp only [hs, if_false] at h
          cases h
      | pother =>
        simp only [parse_json, hl, isSequence, Bool.not_false, if_true] at h
        cases h
        rfl
      | parr events =>
        simp only [parse_json, hl, isSequence, Bool.not_true, Bool.false_eq_true,
          if_false, pyLen] at h
        by_cases hlen : events.length = 0
        · simp only [hlen, if_true] at h
          cases h
          rfl
        · simp only [hlen, if_false] at h
          by_cases hall : events.all (fun e => (e.lookup "siteId").isSome)
          · simp only [hall, if_true, id] at h
            cases h
            simp only at hp
            simp only [hp, List.foldl_nil]
            rfl
          · simp only [hall, if_false] at h
            cases h

theorem foldl_tickStep_safe (loads : String → Option Parsed) (outF : Instance → List Cmd)
    (msgs : Nat → String) :
    ∀ (ticks : List Nat) (regs : Registries) (outs : List TickOut),
      (∀ t ∈ ticks, tickSafe loads (msgs t) = true) →
      ∃ regsF outsF,
        ticks.foldl (tickStep loads outF msgs) (some (regs, outs)) = some (regsF, outsF)
        ∧ outsF.length = outs.length + ticks.length
        ∧ ∀ out ∈ outsF, out ∈ outs ∨ (out.processed = [] → out.published = "[]") := by
  intro ticks
  induction ticks with
  | nil =>
    intro regs outs _
    exact ⟨regs, outs, rfl, by simp, fun out ho => Or.inl ho⟩
  | cons t ts ih =>
    intro regs outs hsafe
    obtain ⟨res, hres⟩ := Option.isSome_iff_exists.mp
      (processTick_total loads outF regs t (msgs t) (hsafe t (List.mem_cons_self _ _)))
    obtain ⟨regsF, outsF, hfold, hlen, hprop⟩ :=
      ih res.1 (outs ++ [res.2]) (fun u hu => hsafe u (List.mem_cons_of_mem t hu))
    refine ⟨regsF, outsF, ?_, ?_, ?_⟩
    · simpa [tickStep, hres] using hfold
    · rw [hlen]
      simp
      omega
    · intro out ho
      rcases hprop out ho with hin | hpub
      · rcases List.mem_append.mp hin with hin2 | hin2
        · exact Or.inl hin2
        · simp only [List.mem_singleton] at hin2
          subst hin2
          exact Or.inr (processTick_pub_empty loads outF regs t (msgs t) res hres)
      · exact Or.inr hpub

/-- C7: whenever every tick's inbound message is one the loop body handles
(empty, malformed, not a JSON array, or an array of events with site ids),
the run completes with exactly one publish per loop iteration, never
skipped, and a tick without work publishes the serialized empty list. -/
theorem c7_one_publish_per_tick (loads : String → Option Parsed)
    (outF : Instance → List Cmd) (timeBin simDay : Nat) (msgs : Nat → String)
    (hsafe : ∀ t ∈ pyRange (simDay - timeBin) timeBin, tickSafe loads (msgs t) = true) :
    ∃ regsF outsF, run_spm_federate loads outF timeBin simDay msgs = some (regsF, outsF)
      ∧ outsF.length = (pyRange (simDay - timeBin) timeBin).length
      ∧ ∀ out ∈ outsF, out.processed = [] → out.published = "[]" := by
  obtain ⟨regsF, outsF, hfold, hlen, hprop⟩ :=
    foldl_tickStep_safe loads outF msgs (pyRange (simDay - timeBin) timeBin) ⟨[], []⟩ [] hsafe
  refine ⟨regsF, outsF, hfold, by simpa using hlen, ?_⟩
  intro out ho
  rcases hprop out ho with hin | hpub
  · simp at hin
  · exact hpub

theorem lookup_isSome_keys {β : Type} (d : List (String × β)) (k : String) :
    (d.lookup k).isSome = true ↔ k ∈ d.map Prod.fst := by
  rw [List.lookup_isSome_iff]
  constructor
  · rintro ⟨p, hp, he⟩
    exact List.mem_map.mpr ⟨p, hp, (beq_iff_eq.mp he).symm⟩
  · rintro hm
    obtain ⟨p, hp, he⟩ := List.mem_map.mp hm
    exact ⟨p, hp, beq_iff_eq.mpr he.symm⟩

theorem recordRun_keys (site : String) (t : Nat) (es : List PyObj)
    (d : List (String × Instance)) :
    (recordRun site t es d).map Prod.fst = d.map Prod.fst := by
  unfold recordRun
  rw [List.map_map]
  refine List.map_congr_left ?_
  intro p _
  by_cases h : p.1 = site <;> simp [h]

theorem applyTask_keys (regs : Registries) (task : Task) :
    (applyTask regs task).default_spm_c_dict.map Prod.fst =
      regs.default_spm_c_dict.map Prod.fst
    ∧ (applyTask regs task).ride_hail_spm_c_dict.map Prod.fst =
      regs.ride_hail_spm_c_dict.map Prod.fst := by
  unfold applyTask run_spm_controllers
  by_cases h : pyStartsWith depotPrefixVal (pyLower task.1) <;>
    simp [h, recordRun_keys]

theorem foldl_applyTask_keys (tasks : List Task) :
    ∀ regs : Registries,
      (tasks.foldl applyTask regs).default_spm_c_dict.map Prod.fst =
        regs.default_spm_c_dict.map Prod.fst
      ∧ (tasks.foldl applyTask regs).ride_hail_spm_c_dict.map Prod.fst =
        regs.ride_hail_spm_c_dict.map Prod.fst := by
  induction tasks with
  | nil => intro regs; exact ⟨rfl, rfl⟩
  | cons ta ts ih =>
    intro regs
    simp only [List.foldl_cons]
    exact ⟨(ih (applyTask regs ta)).1.trans (applyTask_keys regs ta).1,
      (ih (applyTask regs ta)).2.trans (applyTask_keys regs ta).2⟩

theorem init_keys_mono (s : String) (regs : Registries) (k : String) :
    (k ∈ regs.default_spm_c_dict.map Prod.fst →
      k ∈ (init_spm_controllers s regs).default_spm_c_dict.map Prod.fst)
    ∧ (k ∈ regs.ride_hail_spm_c_dict.map Prod.fst →
      k ∈ (init_spm_controllers s regs).ride_hail_spm_c_dict.map Prod.fst) := by
  unfold init_spm_controllers
  constructor
  · intro hm
    by_cases h : (regs.default_spm_c_dict.lookup s).isSome <;> simp [h, hm]
  · intro hm
    by_cases h : (regs.ride_hail_spm_c_dict.lookup s).isSome <;> simp [h, hm]

theorem init_keys_self (s : String) (regs : Registries) :
    s ∈ (init_spm_controllers s regs).default_spm_c_dict.map Prod.fst
    ∧ s ∈ (init_spm_controllers s regs).ride_hail_spm_c_dict.map Prod.fst :=
  ⟨(lookup_isSome_keys _ _).mp (init_lookup_isSome s regs).1,
   (lookup_isSome_keys _ _).mp (init_lookup_isSome s regs).2⟩

theorem init_keysEq (s : String) (regs : Registries)
    (h : regs.default_spm_c_dict.map Prod.fst = regs.ride_hail_spm_c_dict.map Prod.fst) :
    (init_spm_controllers s regs).default_spm_c_dict.map Prod.fst =
      (init_spm_controllers s regs).ride_hail_spm_c_dict.map Prod.fst := by
  have hiff : (regs.default_spm_c_dict.lookup s).isSome =
      (regs.ride_hail_spm_c_dict.lookup s).isSome := by
    refine Bool.eq_iff_iff.mpr ?_
    rw [lookup_isSome_keys, lookup_isSome_keys, h]
  unfold init_spm_controllers
  by_cases hd : (regs.default_spm_c_dict.lookup s).isSome
  · have hr : (regs.ride_hail_spm_c_dict.lookup s).isSome = true := by rw [← hiff]; exact hd
    simp [hd, hr, h]
  · have hr : (regs.ride_hail_spm_c_dict.lookup s).isSome = false := by
      rw [← hiff]
      cases hb : (regs.default_spm_c_dict.lookup s).isSome
      · rfl
      · exact absurd hb hd
    simp [hd, hr, h]

theorem groupStep_regs (t : Nat) (acc : LoopAcc) (g : String × List PyObj) :
    (groupStep t acc g).regs = init_spm_controllers g.1 acc.regs := by
  unfold groupStep
  by_cases hlen : 0 < (g.2.filter hasVehicleId).length <;> simp [hlen]

theorem fold_groupStep_keys_mono (t : Nat) :
    ∀ (groups : List (String × List PyObj)) (acc : LoopAcc) (k : String),
      (k ∈ acc.regs.default_spm_c_dict.map Prod.fst →
        k ∈ (groups.foldl (groupStep t) acc).regs.default_spm_c_dict.map Prod.fst)
      ∧ (k ∈ acc.regs.ride_hail_spm_c_dict.map Prod.fst →
        k ∈ (groups.foldl (groupStep t) acc).regs.ride_hail_spm_c_dict.map Prod.fst) := by
  intro groups
  induction groups with
  | nil => intro acc k; exact ⟨id, id⟩
  | cons g gs ih =>
    intro acc k
    simp only [List.foldl_cons]
    constructor
    · intro hm
      refine (ih (groupStep t acc g) k).1 ?_
      rw [groupStep_regs]
      exact (init_keys_mono g.1 acc.regs k).1 hm
    · intro hm
      refine (ih (groupStep t acc g) k).2 ?_
      rw [groupStep_regs]
      exact (init_keys_mono g.1 acc.regs k).2 hm

theorem fold_groupStep_keysEq (t : Nat) :
    ∀ (groups : List (String × List PyObj)) (acc : LoopAcc),
      acc.regs.default_spm_c_dict.map Prod.fst =
        acc.regs.ride_hail_spm_c_dict.map Prod.fst →
      (groups.foldl (groupStep t) acc).regs.default_spm_c_dict.map Prod.fst =
        (groups.foldl (groupStep t) acc).regs.ride_hail_spm_c_dict.map Prod.fst := by
  intro groups
  induction groups with
  | nil => intro acc h; exact h
  | cons g gs ih =>
    intro acc h
    simp only [List.foldl_cons]
    refine ih (groupStep t acc g) ?_
    rw [groupStep_regs]
    exact init_keysEq g.1 acc.regs h

theorem fold_groupStep_seen (t : Nat) :
    ∀ (groups : List (String × List PyObj)) (acc : LoopAcc) (s : String),
      s ∈ groups.map Prod.fst →
      s ∈ (groups.foldl (groupStep t) acc).regs.default_spm_c_dict.map Prod.fst
      ∧ s ∈ (groups.foldl (groupStep t) acc).regs.ride_hail_spm_c_dict.map Prod.fst := by
  intro groups
  induction groups with
  | nil => intro acc s h; simp at h
  | cons g gs ih =>
    intro acc s h
    simp only [List.foldl_cons]
    rcases List.mem_cons.mp h with h1 | h2
    · constructor
      · refine (fold_groupStep_keys_mono t gs (groupStep t acc g) s).1 ?_
        rw [groupStep_regs, h1]
        exact (init_keys_self g.1 acc.regs).1
      · refine (fold_groupStep_keys_mono t gs (groupStep t acc g) s).2 ?_
        rw [groupStep_regs, h1]
        exact (init_keys_self g.1 acc.regs).2
    · exact ih (groupStep t acc g) s h2

theorem processTick_keys (loads : String → Option Parsed) (outF : Instance → List Cmd)
    (regs : Registries) (t : Nat) (msg : String) (res : Registries × TickOut)
    (h : processTick loads outF regs t msg = some res) :
    (regs.default_spm_c_dict.map Prod.fst = regs.ride_hail_spm_c_dict.map Prod.fst →
      res.1.default_spm_c_dict.map Prod.fst = res.1.ride_hail_spm_c_dict.map Prod.fst)
    ∧ (∀ k : String,
        (k ∈ regs.default_spm_c_dict.map Prod.fst →
          k ∈ res.1.default_spm_c_dict.map Prod.fst)
        ∧ (k ∈ regs.ride_hail_spm_c_dict.map Prod.fst →
          k ∈ res.1.ride_hail_spm_c_dict.map Prod.fst))
    ∧ (∀ s ∈ res.2.groupKeys,
        s ∈ res.1.default_spm_c_dict.map Prod.fst
        ∧ s ∈ res.1.ride_hail_spm_c_dict.map Prod.fst) := by
  unfold processTick processTickWith at h
  by_cases h1 : strippedEmpty msg
  · simp only [h1, if_true] at h
    cases h
    exact ⟨id, fun k => ⟨id, id⟩, by simp⟩
  · simp only [h1, Bool.false_eq_true, if_false] at h
    cases hl : loads msg with
    | none =>
      simp only [parse_json, hl, isSequence, pyLen, String.length, Bool.not_true,
        Bool.false_eq_true, if_false, if_true] at h
      cases h
      exact ⟨id, fun k => ⟨id, id⟩, by simp⟩
    | some v =>
      cases v with
      | pstr s =>
        simp only [parse_json, hl, isSequence, Bool.not_true, Bool.false_eq_true,
          if_false, pyLen] at h
        by_cases hs : s.length = 0
        · simp only [hs, if_true] at h
          cases h
          exact ⟨id, fun k => ⟨id, id⟩, by simp⟩
        · simp only [hs, if_false] at h
          cases h
      | pother =>
        simp only [parse_json, hl, isSequence, Bool.not_false, if_true] at h
        cases h
        exact ⟨id, fun k => ⟨id, id⟩, by simp⟩
      | parr events =>
        simp only [parse_json, hl, isSequence, Bool.not_true, Bool.false_eq_true,
          if_false, pyLen] at h
        by_cases hlen : events.length = 0
        · simp only [hlen, if_true] at h
          cases h
          exact ⟨id, fun k => ⟨id, id⟩, by simp⟩
        · simp only [hlen, if_false] at h
          by_cases hall : events.all (fun e => (e.lookup "siteId").isSome)
          · simp only [hall, if_true, id] at h
            cases h
            have hak := foldl_applyTask_keys
              ((pyGroupBy key_func events).foldl (groupStep t) ⟨regs, [], [], 0, 0⟩).tasks
              ((pyGroupBy key_func events).foldl (groupStep t) ⟨regs, [], [], 0, 0⟩).regs
            refine ⟨?_, ?_, ?_⟩
            · intro hk
              rw [hak.1, hak.2]
              exact fold_groupStep_keysEq t (pyGroupBy key_func events)
                ⟨regs, [], [], 0, 0⟩ hk
            · intro k
              constructor
              · intro hm
                rw [hak.1]
                exact (fold_groupStep_keys_mono t (pyGroupBy key_func events)
                  ⟨regs, [], [], 0, 0⟩ k).1 hm
              · intro hm
                rw [hak.2]
                exact (fold_groupStep_keys_mono t (pyGroupBy key_func events)
                  ⟨regs, [], [], 0, 0⟩ k).2 hm
            · intro s hs
              simp only at hs
              rw [hak.1, hak.2]
              exact fold_groupStep_seen t (pyGroupBy key_func events)
                ⟨regs, [], [], 0, 0⟩ s hs
          · simp only [hall, if_false] at h
            cases h

theorem foldl_tickStep_none (loads : String → Option Parsed) (outF : Instance → List Cmd)
    (msgs : Nat → String) :
    ∀ ticks : List Nat, ticks.foldl (tickStep loads outF msgs) none = none := by
  intro ticks
  induction ticks with
  | nil => rfl
  | cons t ts ih => simpa [tickStep] using ih

theorem foldl_tickStep_keys (loads : String → Option Parsed) (outF : Instance → List Cmd)
    (msgs : Nat → String) :
    ∀ (ticks : List Nat) (regs : Registries) (outs : List TickOut)
      (regsF : Registries) (outsF : List TickOut),
      ticks.foldl (tickStep loads outF msgs) (some (regs, outs)) = some (regsF, outsF) →
      regs.default_spm_c_dict.map Prod.fst = regs.ride_hail_spm_c_dict.map Prod.fst →
      (∀ out ∈ outs, ∀ s ∈ out.groupKeys,
        s ∈ regs.default_spm_c_dict.map Prod.fst
        ∧ s ∈ regs.ride_hail_spm_c_dict.map Prod.fst) →
      regsF.default_spm_c_dict.map Prod.fst = regsF.ride_hail_spm_c_dict.map Prod.fst
      ∧ ∀ out ∈ outsF, ∀ s ∈ out.groupKeys,
          s ∈ regsF.default_spm_c_dict.map Prod.fst
          ∧ s ∈ regsF.ride_hail_spm_c_dict.map Prod.fst := by
  intro ticks
  induction ticks with
  | nil =>
    intro regs outs regsF outsF h hk hout
    cases h
    exact ⟨hk, hout⟩
  | cons t ts ih =>
    intro regs outs regsF outsF h hk hout
    rw [List.foldl_cons] at h
    cases hres : processTick loads outF regs t (msgs t) with
    | none =>
      have ht : tickStep loads outF msgs (some (regs, outs)) t = none := by
        simp [tickStep, hres]
      rw [ht, foldl_tickStep_none] at h
      cases h
    | some res =>
      have ht : tickStep loads outF msgs (some (regs, outs)) t =
          some (res.1, outs ++ [res.2]) := by
        simp [tickStep, hres]
      rw [ht] at h
      obtain ⟨hkeq, hmono, hseen⟩ := processTick_keys loads outF regs t (msgs t) res hres
      refine ih res.1 (outs ++ [res.2]) regsF outsF h (hkeq hk) ?_
      intro out ho s hs
      rcases List.mem_append.mp ho with ho1 | ho1
      · exact ⟨(hmono s).1 (hout out ho1 s hs).1, (hmono s).2 (hout out ho1 s hs).2⟩
      · simp only [List.mem_singleton] at ho1
        subst ho1
        exact hseen s hs

/-- C10: every site identifier appearing in any group of any tick's parsed
batch, including sites whose events were all filtered out, has controller
instances of both variants created and retained: at the end of the run both
registries contain it, and the two registries always have identical key
sequences. -/
theorem c10_both_variants_created_and_retained (loads : String → Option Parsed)
    (outF : Instance → List Cmd) (timeBin simDay : Nat) (msgs : Nat → String)
    (regsF : Registries) (outsF : List TickOut)
    (h : run_spm_federate loads outF timeBin simDay msgs = some (regsF, outsF)) :
    regsF.default_spm_c_dict.map Prod.fst = regsF.ride_hail_spm_c_dict.map Prod.fst
    ∧ ∀ out ∈ outsF, ∀ s ∈ out.groupKeys,
        (regsF.default_spm_c_dict.lookup s).isSome = true
        ∧ (regsF.ride_hail_spm_c_dict.lookup s).isSome = true := by
  unfold run_spm_federate at h
  obtain ⟨hk, hall⟩ := foldl_tickStep_keys loads outF msgs
    (pyRange (simDay - timeBin) timeBin) ⟨[], []⟩ [] regsF outsF h rfl (by simp)
  refine ⟨hk, ?_⟩
  intro out ho s hs
  obtain ⟨hm1, hm2⟩ := hall out ho s hs
  exact ⟨(lookup_isSome_keys _ _).mpr hm1, (lookup_isSome_keys _ _).mpr hm2⟩

theorem recordRun_comm (s1 s2 : String) (h : s1 ≠ s2) (t1 t2 : Nat)
    (e1 e2 : List PyObj) (d : List (String × Instance)) :
    recordRun s1 t1 e1 (recordRun s2 t2 e2 d) =
      recordRun s2 t2 e2 (recordRun s1 t1 e1 d) := by
  unfold recordRun
  rw [List.map_map, List.map_map]
  refine List.map_congr_left ?_
  intro p _
  by_cases h1 : p.1 = s1 <;> by_cases h2 : p.1 = s2
  · exact absurd (h1 ▸ h2) h
  · simp [Function.comp, h1, h2, h, Ne.symm h]
  · simp [Function.comp, h1, h2, h, Ne.symm h]
  · simp [Function.comp, h1, h2, h, Ne.symm h]

theorem applyTask_comm (x y : Task) (hxy : x.1 ≠ y.1) (z : Registries) :
    applyTask (applyTask z x) y = applyTask (applyTask z y) x := by
  unfold applyTask run_spm_controllers
  by_cases hx : pyStartsWith depotPrefixVal (pyLower x.1) <;>
    by_cases hy : pyStartsWith depotPrefixVal (pyLower y.1) <;>
    simp [hx, hy]
  · exact recordRun_comm y.1 x.1 (Ne.symm hxy) y.2.1 x.2.1 y.2.2 x.2.2
      z.ride_hail_spm_c_dict
  · exact recordRun_comm y.1 x.1 (Ne.symm hxy) y.2.1 x.2.1 y.2.2 x.2.2
      z.default_spm_c_dict

theorem foldl_applyTask_perm (tasks : List Task)
    (hnd : (tasks.map (fun ta => ta.1)).Nodup) (tasks' : List Task)
    (hp : List.Perm tasks' tasks) (regs : Registries) :
    tasks'.foldl applyTask regs = tasks.foldl applyTask regs := by
  refine hp.foldl_eq' ?_ regs
  intro x hx y hy z
  by_cases hxy : x.1 = y.1
  · have hx' := hp.mem_iff.mp hx
    have hy' := hp.mem_iff.mp hy
    have hxy' : x = y := List.inj_on_of_nodup_map hnd hx' hy' hxy
    subst hxy'
    rfl
  · exact applyTask_comm x y hxy z

theorem fold_groupStep_task_sites (t : Nat) :
    ∀ (groups : List (String × List PyObj)) (acc : LoopAcc),
      ((groups.foldl (groupStep t) acc).tasks.map (fun ta => ta.1)).Sublist
        (acc.tasks.map (fun ta => ta.1) ++ groups.map Prod.fst) := by
  intro groups
  induction groups with
  | nil => intro acc; simp
  | cons g gs ih =>
    intro acc
    simp only [List.foldl_cons]
    refine (ih (groupStep t acc g)).trans ?_
    unfold groupStep
    by_cases hlen : 0 < (g.2.filter hasVehicleId).length
    · simp only [hlen, if_true, List.map_cons, List.map_append]
      simp [List.append_assoc]
    · simp only [hlen, if_false, List.map_cons]
      exact ((List.sublist_cons_self g.1 (gs.map Prod.fst)).append_left _)

/-- C3 counterexample: for the spec's own end-to-end input, a concurrent
execution that completes the two S1 run calls in the opposite order leaves
the S1 controller with a different latest run, so the published output
differs from sequential mode; the routed duplicate S1 groups (itertools
groupby on unsorted input) give the same site two concurrent units of
work.  List.reverse is one admissible serialization of the spawned runs. -/
theorem c3_counterexample :
    (processTickWith List.reverse loadsClaim outLatest ⟨[], []⟩ 60 "m").map
        (fun r => r.2.published)
      ≠ (processTickWith id loadsClaim outLatest ⟨[], []⟩ 60 "m").map
        (fun r => r.2.published) := by
  decide

/-- C3 amended: whenever each site identifier forms a single contiguous
group in the tick's batch (so no site receives two units of work),
sequential dispatch and every serialization of concurrent dispatch produce
byte-identical published output. -/
theorem c3_amended_order_equivalence (loads : String → Option Parsed)
    (outF : Instance → List Cmd) (regs : Registries) (t : Nat) (msg : String)
    (sched : List Task → List Task)
    (hperm : ∀ l : List Task, List.Perm (sched l) l)
    (hnodup : ∀ events, loads msg = some (Parsed.parr events) →
      ((pyGroupBy key_func events).map Prod.fst).Nodup) :
    (processTickWith sched loads outF regs t msg).map (fun r => r.2.published)
      = (processTick loads outF regs t msg).map (fun r => r.2.published) := by
  unfold processTick processTickWith
  by_cases h1 : strippedEmpty msg
  · simp [h1]
  · simp only [h1, Bool.false_eq_true, if_false]
    cases hl : loads msg with
    | none => simp [parse_json, hl]
    | some v =>
      cases v with
      | pstr s => simp [parse_json, hl]
      | pother => simp [parse_json, hl]
      | parr events =>
        simp only [parse_json, hl, isSequence, Bool.not_true, Bool.false_eq_true,
          if_false, pyLen]
        by_cases hlen : events.length = 0
        · simp [hlen]
        · simp only [hlen, if_false]
          by_cases hall : events.all (fun e => (e.lookup "siteId").isSome)
          · simp only [hall, if_true, id, Option.map_some]
            have hsl := fold_groupStep_task_sites t (pyGroupBy key_func events)
              ⟨regs, [], [], 0, 0⟩
            have hnd : (((pyGroupBy key_func events).foldl (groupStep t)
                ⟨regs, [], [], 0, 0⟩).tasks.map (fun ta => ta.1)).Nodup := by
              refine List.Nodup.sublist ?_ (hnodup events hl)
              simpa using hsl
            rw [foldl_applyTask_perm _ hnd _ (hperm _)]
            simp
          · simp [hall]

theorem span_no_quote (l : List Char) (hq : ∀ c ∈ l, (c == '"') = false)
    (cs : List Char) :
    (l ++ '"' :: cs).takeWhile (fun ch => !(ch == '"')) = l
    ∧ (l ++ '"' :: cs).dropWhile (fun ch => !(ch == '"')) = '"' :: cs := by
  induction l with
  | nil =>
    constructor
    · simp [List.takeWhile_cons]
    · simp [List.dropWhile_cons]
  | cons c tl ih =>
    have hc : (c == '"') = false := hq c (List.mem_cons_self _ _)
    have ih' := ih (fun x hx => hq x (List.mem_cons_of_mem _ hx))
    constructor
    · simp only [List.cons_append, List.takeWhile_cons, hc, Bool.not_false, if_true]
      rw [ih'.1]
    · simp only [List.cons_append, List.dropWhile_cons, hc, Bool.not_false, if_true]
      exact ih'.2

theorem dumpsStr_data (s : String) : (dumpsStr s).data = '"' :: (s.data ++ ['"']) := rfl

theorem parseStrLit_dumps (s : String) (hwf : wfStr s = true) (cs : List Char) :
    parseStrLit ((dumpsStr s).data ++ cs) = some (s, cs) := by
  have hq : ∀ c ∈ s.data, (c == '"') = false := by
    intro c hc
    have hall := List.all_eq_true.mp hwf c hc
    unfold wfChar at hall
    simp only [Bool.and_eq_true] at hall
    simpa using hall.1.2
  have hshape : (dumpsStr s).data ++ cs = '"' :: (s.data ++ '"' :: cs) := by
    rw [dumpsStr_data]
    simp
  rw [hshape]
  have hsp := span_no_quote s.data hq cs
  unfold parseStrLit
  simp only [if_pos rfl]
  rw [hsp.2, hsp.1]
  simp

theorem parsePair_dumps (p : String × String) (h1 : wfStr p.1 = true)
    (h2 : wfStr p.2 = true) (cs : List Char) :
    parsePair ((dumpsPair p).data ++ cs) = some (p, cs) := by
  have hshape : (dumpsPair p).data ++ cs =
      (dumpsStr p.1).data ++ (':' :: ((dumpsStr p.2).data ++ cs)) := by
    simp [dumpsPair]
  rw [hshape]
  unfold parsePair
  rw [parseStrLit_dumps p.1 h1]
  simp only [if_pos rfl]
  rw [parseStrLit_dumps p.2 h2]
  simp

theorem joinComma_length {α : Type} (f : α → String) :
    ∀ l : List α, l.length ≤ (joinComma (l.map f)).data.length + 1 := by
  intro l
  induction l with
  | nil => simp [joinComma]
  | cons x xs ih =>
    cases xs with
    | nil => simp [joinComma]
    | cons y ys =>
      simp only [List.map_cons, joinComma] at ih ⊢
      simp only [String.data_append, List.length_append, List.length_cons]
      simp only [List.length_cons] at ih
      omega

theorem parsePairsAux_encode :
    ∀ (ps : List (String × String)),
      (∀ p ∈ ps, wfStr p.1 = true ∧ wfStr p.2 = true) → ps ≠ [] →
      ∀ (fuel : Nat), ps.length ≤ fuel →
      ∀ (d : Char), (d == ',') = false → ∀ (cs : List Char),
        parsePairsAux fuel ((joinComma (ps.map dumpsPair)).data ++ d :: cs)
          = some (ps, d :: cs) := by
  intro ps
  induction ps with
  | nil => intro _ hne; exact absurd rfl hne
  | cons p ps' ih =>
    intro hwf _ fuel hfuel d hd cs
    have hd' : ¬ d = ',' := by simpa using hd
    cases fuel with
    | zero => simp at hfuel
    | succ f =>
      cases ps' with
      | nil =>
        simp only [List.map_cons, List.map_nil, joinComma]
        unfold parsePairsAux
        rw [parsePair_dumps p (hwf p (List.mem_cons_self _ _)).1
          (hwf p (List.mem_cons_self _ _)).2]
        simp [hd']
      | cons q qs =>
        have hshape : (joinComma ((p :: q :: qs).map dumpsPair)).data ++ d :: cs =
            (dumpsPair p).data ++
              (',' :: ((joinComma ((q :: qs).map dumpsPair)).data ++ d :: cs)) := by
          simp only [List.map_cons, joinComma]
          simp
        rw [hshape]
        unfold parsePairsAux
        rw [parsePair_dumps p (hwf p (List.mem_cons_self _ _)).1
          (hwf p (List.mem_cons_self _ _)).2]
        simp only [if_pos rfl]
        rw [ih (fun x hx => hwf x (List.mem_cons_of_mem _ hx)) (by simp) f
          (by simp only [List.length_cons] at hfuel ⊢; omega) d hd cs]
        simp

theorem dumpsPair_head (p : String × String) :
    ∃ t, (dumpsPair p).data = '"' :: t :=
  ⟨((p.1.data ++ ['"']) ++ [':']) ++ ('"' :: (p.2.data ++ ['"'])), rfl⟩

theorem joinComma_dumpsPair_head (p : String × String) (ps : List (String × String)) :
    ∃ t, (joinComma ((p :: ps).map dumpsPair)).data = '"' :: t := by
  obtain ⟨t, ht⟩ := dumpsPair_head p
  cases ps with
  | nil => exact ⟨t, by simpa [joinComma] using ht⟩
  | cons q qs =>
    refine ⟨t ++ (',' :: (joinComma ((q :: qs).map dumpsPair)).data), ?_⟩
    simp only [List.map_cons, joinComma]
    simp [ht]

theorem parseObj_dumps (c : Cmd) (hwf : wfCmd c = true) (cs : List Char) :
    parseObj ((dumpsObj c).data ++ cs) = some (c, cs) := by
  cases c with
  | nil =>
    show parseObj (('\x7b' :: ['\x7d']) ++ cs) = some ([], cs)
    unfold parseObj
    simp
  | cons p ps =>
    have hwf' : ∀ x ∈ p :: ps, wfStr x.1 = true ∧ wfStr x.2 = true := by
      intro x hx
      have hx' := List.all_eq_true.mp hwf x hx
      simpa using hx'
    obtain ⟨t, ht⟩ := joinComma_dumpsPair_head p ps
    have hshape : (dumpsObj (p :: ps)).data ++ cs =
        '\x7b' :: ((joinComma ((p :: ps).map dumpsPair)).data ++ '\x7d' :: cs) := by
      simp [dumpsObj]
    rw [hshape]
    unfold parseObj
    simp only [if_pos rfl]
    have hlen : (p :: ps).length ≤
        (('"' :: (t ++ '\x7d' :: cs)).length + 1) := by
      have h1 := joinComma_length dumpsPair (p :: ps)
      rw [ht] at h1
      simp only [List.length_cons, List.length_append] at h1 ⊢
      omega
    have henc := parsePairsAux_encode (p :: ps) hwf' (by simp)
      (('"' :: (t ++ '\x7d' :: cs)).length + 1) hlen '\x7d' (by decide) cs
    rw [ht] at henc ⊢
    simp only [List.cons_append] at henc ⊢
    simp only [List.length_cons, List.length_append] at henc
    simp [henc]

theorem dumpsObj_head (c : Cmd) :
    ∃ t, (dumpsObj c).data = '\x7b' :: t :=
  ⟨(joinComma (c.map dumpsPair)).data ++ ['\x7d'], rfl⟩

theorem joinComma_dumpsObj_head (c : Cmd) (bs : List Cmd) :
    ∃ t, (joinComma ((c :: bs).map dumpsObj)).data = '\x7b' :: t := by
  obtain ⟨t, ht⟩ := dumpsObj_head c
  cases bs with
  | nil => exact ⟨t, by simpa [joinComma] using ht⟩
  | cons c2 bs2 =>
    refine ⟨t ++ (',' :: (joinComma ((c2 :: bs2).map dumpsObj)).data), ?_⟩
    simp only [List.map_cons, joinComma]
    simp [ht]

theorem parseObjsAux_encode :
    ∀ (b : List Cmd), (∀ c ∈ b, wfCmd c = true) → b ≠ [] →
      ∀ (fuel : Nat), b.length ≤ fuel →
      ∀ (d : Char), (d == ',') = false → ∀ (cs : List Char),
        parseObjsAux fuel ((joinComma (b.map dumpsObj)).data ++ d :: cs)
          = some (b, d :: cs) := by
  intro b
  induction b with
  | nil => intro _ hne; exact absurd rfl hne
  | cons c bs ih =>
    intro hwf _ fuel hfuel d hd cs
    have hd' : ¬ d = ',' := by simpa using hd
    cases fuel with
    | zero => simp at hfuel
    | succ f =>
      cases bs with
      | nil =>
        simp only [List.map_cons, List.map_nil, joinComma]
        unfold parseObjsAux
        rw [parseObj_dumps c (hwf c (List.mem_cons_self _ _))]
        simp [hd']
      | cons c2 bs2 =>
        have hshape : (joinComma ((c :: c2 :: bs2).map dumpsObj)).data ++ d :: cs =
            (dumpsObj c).data ++
              (',' :: ((joinComma ((c2 :: bs2).map dumpsObj)).data ++ d :: cs)) := by
          simp only [List.map_cons, joinComma]
          simp
        rw [hshape]
        unfold parseObjsAux
        rw [parseObj_dumps c (hwf c (List.mem_cons_self _ _))]
        simp only [if_pos rfl]
        rw [ih (fun x hx => hwf x (List.mem_cons_of_mem _ hx)) (by simp) f
          (by simp only [List.length_cons] at hfuel ⊢; omega) d hd cs]
        simp

/-- C9: round-trip of the outbound message codec on the CommandBatch wire
fragment: decoding the compact-separator encoding reproduces the batch
exactly (same element count and field values) for every codec-transparent
batch, and the empty batch encodes to exactly the string with open and
close bracket. -/
theorem c9_codec_roundtrip (b : List Cmd) (hwf : wfBatch b = true) :
    loadsBatch (dumpsBatch b) = some b ∧ dumpsBatch [] = "[]" := by
  refine ⟨?_, rfl⟩
  cases b with
  | nil => rfl
  | cons c bs =>
    have hwf' : ∀ x ∈ c :: bs, wfCmd x = true :=
      fun x hx => List.all_eq_true.mp hwf x hx
    obtain ⟨t, ht⟩ := joinComma_dumpsObj_head c bs
    have hshape : (dumpsBatch (c :: bs)).data =
        '[' :: ((joinComma ((c :: bs).map dumpsObj)).data ++ ']' :: []) := rfl
    unfold loadsBatch
    rw [hshape]
    simp only [if_pos rfl]
    have hlen : (c :: bs).length ≤
        (('\x7b' :: (t ++ ']' :: [])).length + 1) := by
      have h1 := joinComma_length dumpsObj (c :: bs)
      rw [ht] at h1
      simp only [List.length_cons, List.length_append] at h1 ⊢
      omega
    have henc := parseObjsAux_encode (c :: bs) hwf' (by simp)
      (('\x7b' :: (t ++ ']' :: [])).length + 1) hlen ']' (by decide) []
    rw [ht] at henc ⊢
    simp only [List.cons_append] at henc ⊢
    simp only [List.length_cons, List.length_append, List.length_nil] at henc
    simp [henc]

/-- Witness for C9 at a concrete two-command batch containing an empty
object and a populated one. -/
theorem c9_witness :
    loadsBatch (dumpsBatch [[("site", "S1"), ("power", "42")], []]) =
      some [[("site", "S1"), ("power", "42")], []]
    ∧ dumpsBatch [] = "[]" :=
  c9_codec_roundtrip [[("site", "S1"), ("power", "42")], []] (by decide)

/-- Witness for C3 amended: a batch with two events at two distinct sites,
dispatched concurrently in reverse completion order, publishes the same
bytes as sequential dispatch. -/
theorem c3_witness :
    (processTickWith List.reverse loadsPair outLatest ⟨[], []⟩ 60 "m").map
        (fun r => r.2.published)
      = (processTick loadsPair outLatest ⟨[], []⟩ 60 "m").map
        (fun r => r.2.published) :=
  c3_amended_order_equivalence loadsPair outLatest ⟨[], []⟩ 60 "m" List.reverse
    (fun l => l.reverse_perm) (by intro events h; cases h; decide)

/-- Witness for C10: a two-tick run whose only event each tick lacks a
vehicleId still registers site S2 in both registries, and the key
sequences agree. -/
theorem c10_witness :
    (Registries.mk [("S2", ⟨"DefaultSPMC", "S2", []⟩)]
        [("S2", ⟨"RideHailSPMC", "S2", []⟩)]).default_spm_c_dict.map Prod.fst =
      (Registries.mk [("S2", ⟨"DefaultSPMC", "S2", []⟩)]
        [("S2", ⟨"RideHailSPMC", "S2", []⟩)]).ride_hail_spm_c_dict.map Prod.fst
    ∧ ((Registries.mk [("S2", ⟨"DefaultSPMC", "S2", []⟩)]
        [("S2", ⟨"RideHailSPMC", "S2", []⟩)]).default_spm_c_dict.lookup "S2").isSome = true :=
  ⟨(c10_both_variants_created_and_retained loadsNoVid (fun _ => []) 60 180 (fun _ => "x")
      (Registries.mk [("S2", ⟨"DefaultSPMC", "S2", []⟩)] [("S2", ⟨"RideHailSPMC", "S2", []⟩)])
      [⟨"[]", false, false, ["S2"], [], [], 0, 0⟩, ⟨"[]", false, false, ["S2"], [], [], 0, 0⟩]
      rfl).1,
   ((c10_both_variants_created_and_retained loadsNoVid (fun _ => []) 60 180 (fun _ => "x")
      (Registries.mk [("S2", ⟨"DefaultSPMC", "S2", []⟩)] [("S2", ⟨"RideHailSPMC", "S2", []⟩)])
      [⟨"[]", false, false, ["S2"], [], [], 0, 0⟩, ⟨"[]", false, false, ["S2"], [], [], 0, 0⟩]
      rfl).2 ⟨"[]", false, false, ["S2"], [], [], 0, 0⟩ (by simp) "S2" (by simp)).1⟩

/-- Witness for C7: a two-tick run (time bin 60, simulated day 180) with an
always-empty inbound message completes with one publish per tick. -/
theorem c7_witness :
    ∃ regsF outsF,
      run_spm_federate (fun _ => none) (fun _ => []) 60 180 (fun _ => "") =
        some (regsF, outsF)
      ∧ outsF.length = (pyRange (180 - 60) 60).length
      ∧ ∀ out ∈ outsF, out.processed = [] → out.published = "[]" :=
  c7_one_publish_per_tick (fun _ => none) (fun _ => []) 60 180 (fun _ => "")
    (by decide)

end SPCF
